import Mathlib

/-!
Verification development for the triangular-grid slicer
(`getAroundATriangularGrid.py`).

The source is a single Python module driving Blender.  The core pipeline
(vertex graph, band classifier `slicer`, subset partitioner `sliceRunner`
with `bfs`, and chain `reducer`) is embedded shallowly below:

* Python objects (`Node`, `SliceSubSet`, `SlicerSoliton`) become records;
  in-place mutation becomes explicit state passing over `List (Node α)`.
* Python floats are modelled by an arbitrary `LinearOrderedCommRing α`;
  all concrete scenario inputs have integer coordinates, so witnesses
  instantiate `α := ℤ`, which the kernel can evaluate.
* `math.sqrt` is irrational, so the soliton stores the *squared* grid-edge
  length (`cubeEdgeLengthSq`); the band test `|Δz| ≤ edgeLen·√3` of the
  source is embedded as the equivalent `Δz² ≤ 3·edgeLenSq`
  (`divergencyCheck`), and the lemma `divergencyCheck_iff_abs_le` proves,
  over `ℝ`, that this boolean equals the source's comparison.
* Python exceptions become `Except PyError` (list indexing out of range
  raises `IndexError` in CPython; there is a single error constructor).
* The classifier additionally logs a ghost trace `sliceEvents` recording,
  for every label write, the vertex, the label, the anchor vertex of the
  band the vertex joins, and the two projections read at that moment; the
  trace does not influence the computation.
-/

set_option maxRecDepth 65536

inductive PyError : Type
  | indexOutOfRange : PyError
deriving DecidableEq, Inhabited

instance {epsilon sigma : Type} [DecidableEq epsilon] [DecidableEq sigma] :
    DecidableEq (Except epsilon sigma) := fun a b =>
  match a, b with
  | .error e, .error e2 =>
    match decEq e e2 with
    | isTrue h => isTrue (by rw [h])
    | isFalse h => isFalse (by simp [h])
  | .ok x, .ok y =>
    match decEq x y with
    | isTrue h => isTrue (by rw [h])
    | isFalse h => isFalse (by simp [h])
  | .error e, .ok y => isFalse (by simp)
  | .ok x, .error e => isFalse (by simp)

section Model

variable {α : Type} [LinearOrderedCommRing α]

/-- Cartesian coordinates (`numpy array` of length 3 in the source). -/
structure Vec3 (α : Type) where
  x : α
  y : α
  z : α
deriving DecidableEq

instance : Inhabited (Vec3 α) := ⟨⟨0, 0, 0⟩⟩

/-- Componentwise difference, source `firstNode.getCoordinates() - neighbourNode.getCoordinates()`. -/
def Vec3.sub (v w : Vec3 α) : Vec3 α := ⟨v.x - w.x, v.y - w.y, v.z - w.z⟩

/-- Dot product, source `@` on numpy arrays. -/
def Vec3.dot (v w : Vec3 α) : α := v.x * w.x + v.y * w.y + v.z * w.z

/-- Mesh vertex, source class `Node`: coordinates, neighbour indices,
visited flag, band name (`__sliceName`), subset name (`__sliceSubSetName`)
and the projection onto the slicing direction (`__rotatedZ`). -/
structure Node (α : Type) where
  coordinates : Vec3 α
  neighboursIndices : List Nat
  visited : Bool
  sliceName : String
  sliceSubSetName : String
  rotatedZ : α
deriving DecidableEq

/-- Source `Node.__init__` together with `rotateZ`: fresh vertex with empty
neighbour list, unvisited, empty names, projection `coordinates @ npNormal`. -/
def Node.init (bpyVertex : Vec3 α) (npNormal : Vec3 α) : Node α :=
  { coordinates := bpyVertex
    neighboursIndices := []
    visited := false
    sliceName := ""
    sliceSubSetName := ""
    rotatedZ := bpyVertex.dot npNormal }

instance : Inhabited (Node α) := ⟨Node.init default default⟩

/-- Source `Node.addNeighbourIndex` (appends, no deduplication). -/
def Node.addNeighbourIndex (n : Node α) (index : Nat) : Node α :=
  { n with neighboursIndices := n.neighboursIndices ++ [index] }

/-- Source `Node.markAsVisited`. -/
def Node.markAsVisited (n : Node α) : Node α := { n with visited := true }

/-- Source `Node.setSliceName`. -/
def Node.setSliceName (n : Node α) (sliceName : String) : Node α :=
  { n with sliceName := sliceName }

/-- Source `Node.setSliceSubSetName`. -/
def Node.setSliceSubSetName (n : Node α) (sliceSubSetName : String) : Node α :=
  { n with sliceSubSetName := sliceSubSetName }

/-- Python's `nodesArr[i]`: in every reachable call the index is in range,
so out-of-range reads return a dummy vertex instead of raising. -/
def getNode (nodesArr : List (Node α)) (i : Nat) : Node α :=
  nodesArr.getD i default

/-- In-place mutation of `nodesArr[i]`, modelled functionally. -/
def modifyNode (nodesArr : List (Node α)) (i : Nat) (f : Node α → Node α) :
    List (Node α) :=
  nodesArr.set i (f (getNode nodesArr i))

/-- Source class `SliceSubSet`: band name, subset index, member vertex
indices (`__sliceSubSetNodes`), seed vertex (`__initialNodeIndex`), reduced
chain (`__reducedSlice`) and derived own name. -/
structure SliceSubSet where
  sliceName : String
  sliceSubSetIndex : Nat
  sliceSubSetNodes : List Nat
  initialNodeIndex : Nat
  reducedSlice : List Nat
  ownName : String
deriving DecidableEq, Inhabited

/-- Source `SliceSubSet.nodeSubSetName`: band name concatenated with the
decimal subset index (`str(...)` is `Nat.repr`). -/
def SliceSubSet.nodeSubSetName (S : SliceSubSet) : String :=
  S.sliceName ++ Nat.repr S.sliceSubSetIndex

/-- Source `SliceSubSet.__init__`. -/
def SliceSubSet.mkSub (initialNode : Node α) (initialNodeIndex : Nat)
    (sliceSubSetIndex : Nat) : SliceSubSet :=
  let S : SliceSubSet :=
    { sliceName := initialNode.sliceName
      sliceSubSetIndex := sliceSubSetIndex
      sliceSubSetNodes := []
      initialNodeIndex := initialNodeIndex
      reducedSlice := []
      ownName := "" }
  { S with ownName := S.nodeSubSetName }

/-- Source `SliceSubSet.addNode`. -/
def SliceSubSet.addNode (S : SliceSubSet) (neighbourIndex : Nat) : SliceSubSet :=
  { S with sliceSubSetNodes := S.sliceSubSetNodes ++ [neighbourIndex] }

/-- Source `SliceSubSet.addToReducedSlice`. -/
def SliceSubSet.addToReducedSlice (S : SliceSubSet) (nodeIndex : Nat) : SliceSubSet :=
  { S with reducedSlice := S.reducedSlice ++ [nodeIndex] }

/-- One neighbour inspection of the breadth-first search inner loop
(source lines 213-218): an unlabeled vertex of the same band is labeled
with the subset's own name, queued, and appended to the member list. -/
def bfsVisit (st : SliceSubSet × List (Node α) × List Nat)
    (neighbourIndex : Nat) : SliceSubSet × List (Node α) × List Nat :=
  let S := st.1
  let nodesArr := st.2.1
  let queue := st.2.2
  let nodeToChek := getNode nodesArr neighbourIndex
  if nodeToChek.sliceSubSetName = "" ∧ nodeToChek.sliceName = S.sliceName then
    (S.addNode neighbourIndex,
     modifyNode nodesArr neighbourIndex (fun n => n.setSliceSubSetName S.ownName),
     queue ++ [neighbourIndex])
  else st

/-- The `while len(bfsQueue)` loop of `SliceSubSet.bfs`.  The fuel bounds
the number of queue pops; every pushed vertex was unlabeled and receives a
non-empty label first, so `nodesArr.length + 1` pops always drain the
queue. -/
def bfsLoop (fuel : Nat) (S : SliceSubSet) (nodesArr : List (Node α))
    (queue : List Nat) : SliceSubSet × List (Node α) :=
  match fuel, queue with
  | 0, _ => (S, nodesArr)
  | _, [] => (S, nodesArr)
  | fuel + 1, curIdx :: queueRest =>
    let currentNode := getNode nodesArr curIdx
    let st := currentNode.neighboursIndices.foldl bfsVisit (S, nodesArr, queueRest)
    bfsLoop fuel st.1 st.2.1 st.2.2

/-- Source `SliceSubSet.bfs`: seed the queue and member list with the
initial vertex, label it, then drain the queue. -/
def SliceSubSet.bfs (S : SliceSubSet) (initialNodeIndex : Nat)
    (nodesArr : List (Node α)) : SliceSubSet × List (Node α) :=
  let S := S.addNode initialNodeIndex
  let nodesArr :=
    modifyNode nodesArr initialNodeIndex (fun n => n.setSliceSubSetName S.nodeSubSetName)
  bfsLoop (nodesArr.length + 1) S nodesArr [initialNodeIndex]

/-- The candidate computation of `SliceSubSet.reducer` (source line 243):
neighbours whose subset name differs from this subset's own name.  A vertex
not yet assigned to any subset has the empty name, which also differs. -/
def candidatIndices (S : SliceSubSet) (nodesArr : List (Node α))
    (currentNode : Node α) : List Nat :=
  currentNode.neighboursIndices.filter
    (fun index => (getNode nodesArr index).sliceSubSetName != S.ownName)

/-- Python's `max(l, key=k)` / `min(l, key=k)` on a non-empty list: the
first element with the extremal key; `repl old new = true` means `new`
replaces the current best (strict comparison, so ties keep the earlier
element). -/
def pyExtremalBy (repl : α → α → Bool) (key : Nat → α) : List Nat → Nat
  | [] => 0
  | h :: t => t.foldl (fun best x => if repl (key best) (key x) then x else best) h

/-- The strategy selection of `SliceSubSet.reducer` (source lines 229-237):
`min` is chosen iff some neighbour of the seed has strictly smaller
projection and a different band name. -/
def SliceSubSet.reducerStrategyMin (S : SliceSubSet) (nodesArr : List (Node α)) : Bool :=
  let currentNode := getNode nodesArr S.initialNodeIndex
  currentNode.neighboursIndices.any (fun neighbourIndex =>
    decide ((getNode nodesArr neighbourIndex).rotatedZ < currentNode.rotatedZ) &&
    ((getNode nodesArr neighbourIndex).sliceName != currentNode.sliceName))

/-- One iteration of the member loop of `SliceSubSet.reducer` (source lines
239-252): skip visited vertices, mark the vertex visited, compute the
cross-subset candidates, and retain the vertex in the reduced chain exactly
when the strategy-extremal element of `candidates ++ [vertex]` is not the
vertex itself. -/
def reducerStep (useMin : Bool) (st : SliceSubSet × List (Node α))
    (nodeIndex : Nat) : SliceSubSet × List (Node α) :=
  let S := st.1
  let nodesArr := st.2
  let currentNode := getNode nodesArr nodeIndex
  if currentNode.visited then st
  else
    let nodesArr := modifyNode nodesArr nodeIndex Node.markAsVisited
    let cands := candidatIndices S nodesArr currentNode
    if cands.isEmpty then (S, nodesArr)
    else
      let resultIndex := pyExtremalBy
        (fun b x => if useMin then decide (x < b) else decide (b < x))
        (fun index => (getNode nodesArr index).rotatedZ) (cands ++ [nodeIndex])
      if resultIndex != nodeIndex then (S.addToReducedSlice nodeIndex, nodesArr)
      else (S, nodesArr)

/-- The member loop of `SliceSubSet.reducer`, folded over the member list
that was fixed before the loop started. -/
def reducerLoop (useMin : Bool) : List Nat → SliceSubSet × List (Node α) →
    SliceSubSet × List (Node α)
  | [], st => st
  | nodeIndex :: rest, st => reducerLoop useMin rest (reducerStep useMin st nodeIndex)

/-- Source `SliceSubSet.reducer`: pick the strategy from the seed's
neighbours, unconditionally append the seed to the reduced chain, then run
the member loop. -/
def SliceSubSet.reducer (S : SliceSubSet) (nodesArr : List (Node α)) :
    SliceSubSet × List (Node α) :=
  let useMin := S.reducerStrategyMin nodesArr
  reducerLoop useMin S.sliceSubSetNodes
    (S.addToReducedSlice S.initialNodeIndex, nodesArr)

/-- Ghost record of one `setSliceName` write performed by the classifier:
the labeled vertex, the written label, the anchor vertex of the band the
vertex joins (the vertex itself when it opens a new band), and the two
projections read by the comparison. -/
structure SliceEvent (α : Type) where
  index : Nat
  label : String
  anchor : Nat
  projection : α
  anchorProjection : α
deriving DecidableEq

instance : Inhabited (SliceEvent α) := ⟨⟨0, "", 0, 0, 0⟩⟩

/-- The band test of `SlicerSoliton.slicer` (source line 328):
`abs(base.rotatedZ - cur.rotatedZ) <= cubeEdgeLength * sqrt 3`, embedded as
the equivalent comparison of squares (see `divergencyCheck_iff_abs_le`). -/
def divergencyCheck (cubeEdgeLengthSq zb zc : α) : Bool :=
  decide ((zb - zc) ^ 2 ≤ 3 * cubeEdgeLengthSq)

/-- Loop state of `SlicerSoliton.slicer`: the vertex array, the current
anchor (`baseNode`), the band counter, the current band name, and the ghost
event trace. -/
structure SlicerState (α : Type) where
  nodesArr : List (Node α)
  baseIdx : Nat
  sliceIndex : Nat
  currentSliceName : String
  events : List (SliceEvent α)
deriving DecidableEq

/-- One iteration of `SlicerSoliton.slicer` (source lines 324-335): label
the vertex with the current band if its projection is within the threshold
of the anchor's, otherwise open a new band anchored at this vertex. -/
def slicerStep (cubeEdgeLengthSq : α) (sliceBaseID : String)
    (st : SlicerState α) (index : Nat) : SlicerState α :=
  let baseNode := getNode st.nodesArr st.baseIdx
  let currentNode := getNode st.nodesArr index
  if divergencyCheck cubeEdgeLengthSq baseNode.rotatedZ currentNode.rotatedZ then
    { st with
      nodesArr := modifyNode st.nodesArr index
        (fun n => n.setSliceName st.currentSliceName)
      events := st.events ++
        [⟨index, st.currentSliceName, st.baseIdx, currentNode.rotatedZ, baseNode.rotatedZ⟩] }
  else
    let sliceIndex := st.sliceIndex + 1
    let currentSliceName := sliceBaseID ++ Nat.repr sliceIndex
    { nodesArr := modifyNode st.nodesArr index
        (fun n => n.setSliceName currentSliceName)
      baseIdx := index
      sliceIndex := sliceIndex
      currentSliceName := currentSliceName
      events := st.events ++
        [⟨index, currentSliceName, index, currentNode.rotatedZ, currentNode.rotatedZ⟩] }

/-- Source class `SlicerSoliton`.  `cubeEdgeLengthSq` stores the square of
the source's `__cubeEdgeLength`; `__maxRotatedZ` is `sqrt cubeEdgeLengthSq
* sqrt 3` and is only needed inside the band comparison, which
`divergencyCheck` performs on squares.  `sliceEvents` is the ghost
classifier trace. -/
structure SlicerSoliton (α : Type) where
  sliceDirection : Vec3 α
  nodesArr : List (Node α)
  sortedNodesIndices : List Nat
  cubeEdgeLengthSq : α
  sliceNameBase : String
  subSlicesDict : List (String × List SliceSubSet)
  sliceEvents : List (SliceEvent α)
deriving DecidableEq

instance : Inhabited (SlicerSoliton α) :=
  ⟨⟨default, [], [], 0, "", [], []⟩⟩

/-- Source `SlicerSoliton.buildGraph`: for every edge append each endpoint
to the other's neighbour list; an out-of-range endpoint raises
`IndexError`. -/
def buildGraph (nodesArr : List (Node α)) :
    List (Nat × Nat) → Except PyError (List (Node α))
  | [] => .ok nodesArr
  | edge :: rest =>
    if edge.1 < nodesArr.length then
      let nodesArr := modifyNode nodesArr edge.1 (fun n => n.addNeighbourIndex edge.2)
      if edge.2 < nodesArr.length then
        buildGraph (modifyNode nodesArr edge.2 (fun n => n.addNeighbourIndex edge.1)) rest
      else .error .indexOutOfRange
    else .error .indexOutOfRange

/-- Source `SlicerSoliton.cubeEdgeLengthEval`, returning the *square* of
the grid edge length (the source stores `math.sqrt` of this value):
squared distance between vertex 0 and its first listed neighbour.
Raises `IndexError` when there is no vertex 0 or it has no neighbour. -/
def cubeEdgeLengthSqEval (nodesArr : List (Node α)) : Except PyError α :=
  match nodesArr[0]? with
  | none => .error .indexOutOfRange
  | some firstNode =>
    match firstNode.neighboursIndices[0]? with
    | none => .error .indexOutOfRange
    | some neighbourIdx =>
      let neighbourNode := getNode nodesArr neighbourIdx
      let vectorDifference := firstNode.coordinates.sub neighbourNode.coordinates
      .ok (vectorDifference.dot vectorDifference)

/-- Sort order used for `__sortedNodesIndices` (source line 272): ascending
projection.  Python's `sorted` is stable; `List.insertionSort` with `≤` is
the stable ascending sort. -/
def sortKeyLe (nodesArr : List (Node α)) (i j : Nat) : Prop :=
  (getNode nodesArr i).rotatedZ ≤ (getNode nodesArr j).rotatedZ

instance (nodesArr : List (Node α)) : DecidableRel (sortKeyLe nodesArr) :=
  fun i j =>
    inferInstanceAs (Decidable ((getNode nodesArr i).rotatedZ ≤ (getNode nodesArr j).rotatedZ))

/-- Source `SlicerSoliton.__init__`: build the vertex records, the sorted
index list, the adjacency lists, and the squared edge length; the subset
dictionary starts empty and the name base is set later by
`setSliceNameBase`. -/
def mkSlicerSoliton (bpyVerticesArr : List (Vec3 α)) (bpyEdgesArr : List (Nat × Nat))
    (npNormal : Vec3 α) : Except PyError (SlicerSoliton α) := do
  let nodesArr := bpyVerticesArr.map (fun vertex => Node.init vertex npNormal)
  let sortedNodesIndices :=
    List.insertionSort (sortKeyLe nodesArr) (List.range nodesArr.length)
  let nodesArr ← buildGraph nodesArr bpyEdgesArr
  let cubeEdgeLengthSq ← cubeEdgeLengthSqEval nodesArr
  pure
    { sliceDirection := npNormal
      nodesArr := nodesArr
      sortedNodesIndices := sortedNodesIndices
      cubeEdgeLengthSq := cubeEdgeLengthSq
      sliceNameBase := ""
      subSlicesDict := []
      sliceEvents := [] }

/-- Source `SlicerSoliton.setSliceNameBase`. -/
def SlicerSoliton.setSliceNameBase (s : SlicerSoliton α) (stringValue : String) :
    SlicerSoliton α :=
  { s with sliceNameBase := stringValue }

/-- Source `SlicerSoliton.slicer`: walk the vertices in ascending
projection order and greedily group them into bands (the vertex list is
non-empty whenever the constructor succeeded, so `headD 0` never takes its
default in a pipeline run). -/
def SlicerSoliton.slicer (s : SlicerSoliton α) : SlicerSoliton α :=
  let st := s.sortedNodesIndices.foldl (slicerStep s.cubeEdgeLengthSq s.sliceNameBase)
    { nodesArr := s.nodesArr
      baseIdx := s.sortedNodesIndices.headD 0
      sliceIndex := 0
      currentSliceName := s.sliceNameBase ++ Nat.repr 0
      events := [] }
  { s with nodesArr := st.nodesArr, sliceEvents := s.sliceEvents ++ st.events }

/-- Python dict lookup in insertion-ordered association-list form. -/
def dictGet (subSlicesDict : List (String × List SliceSubSet)) (key : String) :
    List SliceSubSet :=
  ((subSlicesDict.find? (fun p => p.1 == key)).map Prod.snd).getD []

/-- Source `SlicerSoliton.initiateNewSubSlicesList`: create an empty subset
list for this vertex's band if none exists yet (Python dicts preserve
insertion order, hence the append). -/
def SlicerSoliton.initiateNewSubSlicesList (s : SlicerSoliton α) (node : Node α) :
    SlicerSoliton α :=
  if (s.subSlicesDict.find? (fun p => p.1 == node.sliceName)).isSome then s
  else { s with subSlicesDict := s.subSlicesDict ++ [(node.sliceName, [])] }

/-- Source `SlicerSoliton.appendNewSubSlice` (the key always exists when
called from `sliceRunner`). -/
def SlicerSoliton.appendNewSubSlice (s : SlicerSoliton α) (subSlice : SliceSubSet) :
    SlicerSoliton α :=
  let newDict := s.subSlicesDict.map
    (fun p => if p.1 = subSlice.sliceName then (p.1, p.2 ++ [subSlice]) else p)
  { s with subSlicesDict := newDict }

/-- One iteration of `SlicerSoliton.sliceRunner` (source lines 346-362): a
vertex without a subset label that has a neighbour in a different band
seeds a new subset, which is immediately populated by `bfs` and reduced. -/
def SlicerSoliton.sliceRunnerStep (s : SlicerSoliton α) (nodeIndex : Nat) :
    SlicerSoliton α :=
  let currentNode := getNode s.nodesArr nodeIndex
  let s := s.initiateNewSubSlicesList currentNode
  if currentNode.sliceSubSetName = "" then
    if currentNode.neighboursIndices.any
        (fun neighbourIndex => (getNode s.nodesArr neighbourIndex).sliceName != currentNode.sliceName) then
      let newSubSlice := SliceSubSet.mkSub currentNode nodeIndex
        (dictGet s.subSlicesDict currentNode.sliceName).length
      let res := newSubSlice.bfs nodeIndex s.nodesArr
      let res := res.1.reducer res.2
      ({ s with nodesArr := res.2 }).appendNewSubSlice res.1
    else s
  else s

/-- Source `SlicerSoliton.sliceRunner`. -/
def SlicerSoliton.sliceRunner (s : SlicerSoliton α) : SlicerSoliton α :=
  s.sortedNodesIndices.foldl SlicerSoliton.sliceRunnerStep s

/-- Setting `select = True` on the Blender vertices of a reduced chain. -/
def setSelectFlags (select : List Bool) (ids : List Nat) : List Bool :=
  ids.foldl (fun sel i => sel.set i true) select

/-- The explicit-indices loop of `SlicerSoliton.slicesHighlighter` (source
lines 378-385).  CPython list indexing raises `IndexError`, which the
source's `except KeyError` clause never catches, so an out-of-range subset
index aborts the loop with the flags set so far. -/
def highlightLoop (subSlicesArr : List SliceSubSet) :
    List Nat → List Bool → List Bool × Option PyError
  | [], select => (select, none)
  | index :: rest, select =>
    match subSlicesArr[index]? with
    | some subSliceList =>
      highlightLoop subSlicesArr rest (setSelectFlags select subSliceList.reducedSlice)
    | none => (select, some .indexOutOfRange)

/-- Source `SlicerSoliton.slicesHighlighter`.  The Blender selection flags
are modelled by the `select` list; the returned pair is the flag state at
return or at the moment an exception propagates, plus the exception. -/
def SlicerSoliton.slicesHighlighter (s : SlicerSoliton α) (select : List Bool)
    (sliceIndex : Nat) (subSlicesIndices : List Nat) : List Bool × Option PyError :=
  let keys := s.subSlicesDict.map Prod.fst
  match keys[sliceIndex]? with
  | none => (select, some .indexOutOfRange)
  | some certainKeyToHighlight =>
    let subSlicesArr := dictGet s.subSlicesDict certainKeyToHighlight
    if subSlicesIndices.isEmpty then
      (subSlicesArr.foldl (fun sel subSlice => setSelectFlags sel subSlice.reducedSlice) select,
       none)
    else
      highlightLoop subSlicesArr subSlicesIndices select

/-- The module-level driver (source lines 456-470): construct the soliton,
set the name base, classify bands, then partition and reduce. -/
def runPipeline (bpyVerticesArr : List (Vec3 α)) (bpyEdgesArr : List (Nat × Nat))
    (npNormal : Vec3 α) (base : String) : Except PyError (SlicerSoliton α) := do
  let s ← mkSlicerSoliton bpyVerticesArr bpyEdgesArr npNormal
  let s := s.setSliceNameBase base
  let s := s.slicer
  pure s.sliceRunner

/-- The subset list of the band addressed by `sliceIndex` in
`slicesHighlighter` (meaningful when `sliceIndex` is in range). -/
def bandSubsets (s : SlicerSoliton α) (sliceIndex : Nat) : List SliceSubSet :=
  dictGet s.subSlicesDict ((s.subSlicesDict.map Prod.fst).getD sliceIndex "")

end Model

/-- The chain/membership invariant of one subset (claim C5): every vertex
of the reduced chain is a member, and the chain starts with the seed. -/
def SliceSubSet.chainInvariant (S : SliceSubSet) : Prop :=
  (∀ i ∈ S.reducedSlice, i ∈ S.sliceSubSetNodes) ∧
    S.reducedSlice.head? = some S.initialNodeIndex

/-- The canonical order-preserving ring embedding of the integer scenario
coordinates into `ℝ`, used to state the geometric band-width bound. -/
def intCastOrderRingHom : ℤ →+*o ℝ :=
  { toRingHom := Int.castRingHom ℝ
    monotone' := fun a b h => by
      show ((a : ℤ) : ℝ) ≤ ((b : ℤ) : ℝ)
      exact_mod_cast h }

/-! Concrete scenario inputs.  All coordinates are integers, so the
pipeline can be evaluated by the kernel at `α := ℤ`. -/

/-- Scenario A of the specification: the regular 2×2×2 cube point grid.
Vertices 0-3 form the z = 0 layer, vertices 4-7 the z = 1 layer. -/
def cubeVerts : List (Vec3 ℤ) :=
  [⟨0, 0, 0⟩, ⟨1, 0, 0⟩, ⟨0, 1, 0⟩, ⟨1, 1, 0⟩,
   ⟨0, 0, 1⟩, ⟨1, 0, 1⟩, ⟨0, 1, 1⟩, ⟨1, 1, 1⟩]

/-- Scenario A edges: the 12 wireframe edges of the cube followed by one
diagonal per face (triangulation).  The first edge (0,1) makes vertex 1 the
first listed neighbour of vertex 0, so the spacing unit is the unit edge. -/
def cubeEdges : List (Nat × Nat) :=
  [(0, 1), (1, 3), (3, 2), (2, 0),
   (4, 5), (5, 7), (7, 6), (6, 4),
   (0, 4), (1, 5), (2, 6), (3, 7),
   (0, 3), (4, 7), (0, 5), (2, 7), (0, 6), (1, 7)]

/-- Scenario A run: slicing the cube grid along (0,0,1). -/
def scenarioA : Except PyError (SlicerSoliton ℤ) :=
  runPipeline cubeVerts cubeEdges ⟨0, 0, 1⟩ "slice"

/-- The state produced by the Scenario A run (the run succeeds, see
`claimC1_amended`). -/
def scenarioAState : SlicerSoliton ℤ :=
  scenarioA.toOption.getD default

/-- A three-vertex tower 0 -- 1 -- 2 at z = 0, 1, 2: spacing unit 1, so the
band threshold is √3 and vertex 2 opens a second band.  This input produces
non-empty subsets and reduced chains. -/
def towerVerts : List (Vec3 ℤ) := [⟨0, 0, 0⟩, ⟨0, 0, 1⟩, ⟨0, 0, 2⟩]

/-- Edges of the tower scenario. -/
def towerEdges : List (Nat × Nat) := [(0, 1), (1, 2)]

/-- Tower scenario run. -/
def scenarioTower : Except PyError (SlicerSoliton ℤ) :=
  runPipeline towerVerts towerEdges ⟨0, 0, 1⟩ "slice"

/-- The state produced by the tower run. -/
def scenarioTowerState : SlicerSoliton ℤ :=
  scenarioTower.toOption.getD default

/-- A two-vertex configuration mid-pipeline: vertex 0 (band "A", subset
"A0", projection 0) and vertex 1 (band "B", no subset yet, projection 2),
mutual neighbours.  This is the state a subset sees when its reducer runs
before the neighbouring band has been partitioned. -/
def twoBandArr : List (Node ℤ) :=
  [{ coordinates := ⟨0, 0, 0⟩, neighboursIndices := [1], visited := false,
     sliceName := "A", sliceSubSetName := "A0", rotatedZ := 0 },
   { coordinates := ⟨0, 0, 2⟩, neighboursIndices := [0], visited := false,
     sliceName := "B", sliceSubSetName := "", rotatedZ := 2 }]

/-- The subset of band "A" holding vertex 0, not yet reduced. -/
def twoBandSub : SliceSubSet :=
  { sliceName := "A", sliceSubSetIndex := 0, sliceSubSetNodes := [0],
    initialNodeIndex := 0, reducedSlice := [], ownName := "A0" }

/-- First reduction of `twoBandSub`. -/
def twoBandReduced : SliceSubSet × List (Node ℤ) :=
  twoBandSub.reducer twoBandArr

/-- Second reduction, applied to the already-reduced subset with every
member vertex visited. -/
def twoBandRereduced : SliceSubSet × List (Node ℤ) :=
  twoBandReduced.1.reducer twoBandReduced.2

/-! Lemma toolbox: reads and writes through `getNode`/`modifyNode`, and the
shape of the loops. -/

section Lemmas

variable {α : Type} [LinearOrderedCommRing α]

theorem length_modifyNode (nodesArr : List (Node α)) (i : Nat) (f : Node α → Node α) :
    (modifyNode nodesArr i f).length = nodesArr.length := by
  simp [modifyNode]

theorem getNode_modifyNode_ne {nodesArr : List (Node α)} {i j : Nat} (f : Node α → Node α)
    (h : j ≠ i) : getNode (modifyNode nodesArr i f) j = getNode nodesArr j := by
  simp [getNode, modifyNode, List.getD_eq_getElem?_getD, List.getElem?_set_ne (Ne.symm h)]

theorem getNode_modifyNode_self {nodesArr : List (Node α)} {i : Nat} (f : Node α → Node α)
    (h : i < nodesArr.length) :
    getNode (modifyNode nodesArr i f) i = f (getNode nodesArr i) := by
  simp [getNode, modifyNode, List.getD_eq_getElem?_getD, List.getElem?_set_self h]

theorem getNode_modifyNode_proj {β : Type} (g : Node α → β) (f : Node α → Node α)
    (hf : ∀ n, g (f n) = g n) (nodesArr : List (Node α)) (i j : Nat) :
    g (getNode (modifyNode nodesArr i f) j) = g (getNode nodesArr j) := by
  rcases eq_or_ne j i with rfl | h
  · by_cases hl : j < nodesArr.length
    · rw [getNode_modifyNode_self f hl, hf]
    · have heq : modifyNode nodesArr j f = nodesArr := by
        simp [modifyNode, List.set_eq_of_length_le (Nat.le_of_not_lt hl)]
      rw [heq]
  · rw [getNode_modifyNode_ne f h]

theorem candidatIndices_mark (S : SliceSubSet) (nodesArr : List (Node α)) (i : Nat)
    (node : Node α) :
    candidatIndices S (modifyNode nodesArr i Node.markAsVisited) node =
      candidatIndices S nodesArr node := by
  unfold candidatIndices
  refine List.filter_congr ?_
  intro index _
  rw [getNode_modifyNode_proj (fun n => n.sliceSubSetName) Node.markAsVisited (fun n => rfl)]

theorem pyExtremalBy_mark (repl : α → α → Bool) (nodesArr : List (Node α)) (i : Nat)
    (l : List Nat) :
    pyExtremalBy repl (fun index => (getNode (modifyNode nodesArr i Node.markAsVisited) index).rotatedZ) l =
      pyExtremalBy repl (fun index => (getNode nodesArr index).rotatedZ) l := by
  have hkey : (fun index => (getNode (modifyNode nodesArr i Node.markAsVisited) index).rotatedZ) =
      (fun index => (getNode nodesArr index).rotatedZ) := by
    funext index
    exact getNode_modifyNode_proj (fun n => n.rotatedZ) Node.markAsVisited (fun n => rfl)
      nodesArr i index
  rw [hkey]

theorem reducerLoop_visited (useMin : Bool) (l : List Nat) :
    ∀ (S : SliceSubSet) (nodesArr : List (Node α)),
      (∀ i ∈ l, (getNode nodesArr i).visited = true) →
      reducerLoop useMin l (S, nodesArr) = (S, nodesArr) := by
  induction l with
  | nil =>
    intro S nodesArr _
    rfl
  | cons i rest ih =>
    intro S nodesArr h
    rw [reducerLoop]
    have hstep : reducerStep useMin (S, nodesArr) i = (S, nodesArr) := by
      simp [reducerStep, h i (List.mem_cons_self i rest)]
    rw [hstep]
    exact ih S nodesArr (fun j hj => h j (List.mem_cons_of_mem _ hj))

theorem reducerLoop_reducedSlice (useMin : Bool) (l : List Nat) :
    ∀ (S : SliceSubSet) (nodesArr : List (Node α)),
      ∃ extra, (reducerLoop useMin l (S, nodesArr)).1 =
        { S with reducedSlice := S.reducedSlice ++ extra } ∧ ∀ i ∈ extra, i ∈ l := by
  induction l with
  | nil =>
    intro S nodesArr
    exact ⟨[], by simp [reducerLoop], by simp⟩
  | cons nodeIndex rest ih =>
    intro S nodesArr
    rw [reducerLoop]
    by_cases hv : (getNode nodesArr nodeIndex).visited
    · have hstep : reducerStep useMin (S, nodesArr) nodeIndex = (S, nodesArr) := by
        simp [reducerStep, hv]
      rw [hstep]
      obtain ⟨extra, h1, h2⟩ := ih S nodesArr
      exact ⟨extra, h1, fun i hi => List.mem_cons_of_mem _ (h2 i hi)⟩
    · by_cases hc : (candidatIndices S (modifyNode nodesArr nodeIndex Node.markAsVisited)
          (getNode nodesArr nodeIndex)).isEmpty
      · have hstep : reducerStep useMin (S, nodesArr) nodeIndex =
            (S, modifyNode nodesArr nodeIndex Node.markAsVisited) := by
          simp [reducerStep, hv, hc]
        rw [hstep]
        obtain ⟨extra, h1, h2⟩ := ih S (modifyNode nodesArr nodeIndex Node.markAsVisited)
        exact ⟨extra, h1, fun i hi => List.mem_cons_of_mem _ (h2 i hi)⟩
      · by_cases hr : pyExtremalBy
            (fun b x => if useMin then decide (x < b) else decide (b < x))
            (fun index => (getNode (modifyNode nodesArr nodeIndex Node.markAsVisited) index).rotatedZ)
            (candidatIndices S (modifyNode nodesArr nodeIndex Node.markAsVisited)
              (getNode nodesArr nodeIndex) ++ [nodeIndex]) = nodeIndex
        · have hstep : reducerStep useMin (S, nodesArr) nodeIndex =
              (S, modifyNode nodesArr nodeIndex Node.markAsVisited) := by
            simp [reducerStep, hv, hc, hr]
          rw [hstep]
          obtain ⟨extra, h1, h2⟩ := ih S (modifyNode nodesArr nodeIndex Node.markAsVisited)
          exact ⟨extra, h1, fun i hi => List.mem_cons_of_mem _ (h2 i hi)⟩
        · have hstep : reducerStep useMin (S, nodesArr) nodeIndex =
              (S.addToReducedSlice nodeIndex,
               modifyNode nodesArr nodeIndex Node.markAsVisited) := by
            simp [reducerStep, hv, hc, hr]
          rw [hstep]
          obtain ⟨extra, h1, h2⟩ :=
            ih (S.addToReducedSlice nodeIndex) (modifyNode nodesArr nodeIndex Node.markAsVisited)
          refine ⟨nodeIndex :: extra, ?_, ?_⟩
          · rw [h1]
            simp [SliceSubSet.addToReducedSlice]
          · intro i hi
            rcases List.mem_cons.mp hi with rfl | hi
            · exact List.mem_cons_self _ _
            · exact List.mem_cons_of_mem _ (h2 i hi)

end Lemmas

section ClaimsBatch1

variable {α : Type} [LinearOrderedCommRing α]

theorem addToReducedSlice_ownName (S : SliceSubSet) (j : Nat) :
    (S.addToReducedSlice j).ownName = S.ownName := rfl

theorem candidatIndices_addToReducedSlice (S : SliceSubSet) (j : Nat)
    (nodesArr : List (Node α)) (node : Node α) :
    candidatIndices (S.addToReducedSlice j) nodesArr node = candidatIndices S nodesArr node := rfl

/-- C1 (counterexample): on the Scenario A cube input the classifier puts
all 8 vertices into the single band "slice0" (the layer gap 1 is within the
threshold √3), so the run does not produce 2 bands of 4 vertices. -/
theorem claimC1_counterexample :
    scenarioA.toOption.map (fun s => s.nodesArr.map Node.sliceName) =
      some (List.replicate 8 "slice0") ∧
    scenarioA.toOption.map (fun s => ((s.nodesArr.map Node.sliceName).dedup).length) =
      some 1 ∧
    (1 : Nat) ≠ 2 :=
  ⟨by decide, by decide, by decide⟩

/-- C1 (amended): on the Scenario A cube input the run succeeds with
spacing unit 1 (its square is 1), threshold √3 ≈ 1.732, exactly one band
"slice0" containing all 8 vertices, and no subsets at all. -/
theorem claimC1_amended :
    scenarioA.toOption = some scenarioAState ∧
    scenarioAState.cubeEdgeLengthSq = 1 ∧
    Real.sqrt ((scenarioAState.cubeEdgeLengthSq : ℤ) : ℝ) = 1 ∧
    Real.sqrt ((scenarioAState.cubeEdgeLengthSq : ℤ) : ℝ) * Real.sqrt 3 = Real.sqrt 3 ∧
    (1.732 : ℝ) ≤ Real.sqrt 3 ∧ Real.sqrt 3 ≤ 1.733 ∧
    scenarioAState.nodesArr.map Node.sliceName = List.replicate 8 "slice0" ∧
    scenarioAState.subSlicesDict = [("slice0", [])] := by
  have hsq : scenarioAState.cubeEdgeLengthSq = 1 := by decide
  refine ⟨by decide, hsq, ?_, ?_, ?_, ?_, by decide, by decide⟩
  · rw [hsq]
    norm_num
  · rw [hsq]
    norm_num
  · exact (Real.le_sqrt (by norm_num) (by norm_num)).mpr (by norm_num)
  · calc Real.sqrt 3 ≤ Real.sqrt ((1.733 : ℝ) ^ 2) := Real.sqrt_le_sqrt (by norm_num)
    _ = 1.733 := Real.sqrt_sq (by norm_num)

/-- C2 (counterexample): reducing `twoBandSub` once visits its only member
and yields chain [0, 0]; reducing the resulting subset again (all members
visited) appends the seed once more, yielding [0, 0, 0] — the chain is not
unchanged. -/
theorem claimC2_counterexample :
    twoBandReduced.1.sliceSubSetNodes = [0] ∧
    (getNode twoBandReduced.2 0).visited = true ∧
    twoBandReduced.1.reducedSlice = [0, 0] ∧
    twoBandRereduced.1.reducedSlice = [0, 0, 0] ∧
    twoBandRereduced.1.reducedSlice ≠ twoBandReduced.1.reducedSlice := by decide

/-- C2 (amended): running the reducer on a subset all of whose member
vertices are already visited appends exactly one more copy of the seed
vertex id (the unconditional Step-2 append) and changes nothing else; the
member loop itself adds no vertex. -/
theorem claimC2_amended (S : SliceSubSet) (nodesArr : List (Node α))
    (h : ∀ i ∈ S.sliceSubSetNodes, (getNode nodesArr i).visited = true) :
    S.reducer nodesArr = (S.addToReducedSlice S.initialNodeIndex, nodesArr) := by
  unfold SliceSubSet.reducer
  exact reducerLoop_visited _ _ _ _ h

theorem claimC2_amended_witness :
    twoBandReduced.1.reducer twoBandReduced.2 =
      (twoBandReduced.1.addToReducedSlice twoBandReduced.1.initialNodeIndex,
       twoBandReduced.2) :=
  claimC2_amended twoBandReduced.1 twoBandReduced.2 (by decide)

/-- C4 (counterexample): vertex 1 belongs to no subset (empty subset name),
yet it appears in the candidate list the reducer computes for member vertex
0 of `twoBandSub` — a neighbour belonging to no subset IS a candidate. -/
theorem claimC4_counterexample :
    (getNode twoBandArr 1).sliceSubSetName = "" ∧
    candidatIndices twoBandSub twoBandArr (getNode twoBandArr 0) = [1] ∧
    ([1] : List Nat) ≠ [] := by decide

/-- C4 (amended): the candidate set computed for a vertex during reduction
consists exactly of its neighbours whose subset label differs from the
subset's own name; a neighbour belonging to no subset (empty label) also
qualifies, because the empty string differs from the subset's name. -/
theorem claimC4_amended (S : SliceSubSet) (nodesArr : List (Node α))
    (currentNode : Node α) (index : Nat) :
    index ∈ candidatIndices S nodesArr currentNode ↔
      index ∈ currentNode.neighboursIndices ∧
        (getNode nodesArr index).sliceSubSetName ≠ S.ownName := by
  simp [candidatIndices, List.mem_filter]

/-- C9: the subset naming scheme (band name ++ decimal subset index) is not
injective over (band index, subset index) pairs built from a common base:
band 1 / subset 10 and band 11 / subset 0 produce the same name
"slice110". -/
theorem claimC9 :
    ∃ p q : Nat × Nat, p ≠ q ∧
      SliceSubSet.nodeSubSetName
        { sliceName := "slice" ++ Nat.repr p.1, sliceSubSetIndex := p.2,
          sliceSubSetNodes := [], initialNodeIndex := 0, reducedSlice := [], ownName := "" } =
      SliceSubSet.nodeSubSetName
        { sliceName := "slice" ++ Nat.repr q.1, sliceSubSetIndex := q.2,
          sliceSubSetNodes := [], initialNodeIndex := 0, reducedSlice := [], ownName := "" } :=
  ⟨(1, 10), (11, 0), by decide, by decide⟩

/-- C10: when the seed vertex has at least one cross-subset candidate, is
not yet visited, and is not the strategy-extremal element among its
candidates plus itself, the member loop appends the seed a second time, so
the reduced chain contains the seed id at least twice. -/
theorem claimC10 (S : SliceSubSet) (nodesArr : List (Node α)) (rest : List Nat)
    (h1 : S.sliceSubSetNodes = S.initialNodeIndex :: rest)
    (h2 : (getNode nodesArr S.initialNodeIndex).visited = false)
    (h3 : candidatIndices S nodesArr (getNode nodesArr S.initialNodeIndex) ≠ [])
    (h4 : pyExtremalBy
        (fun b x => if S.reducerStrategyMin nodesArr then decide (x < b) else decide (b < x))
        (fun index => (getNode nodesArr index).rotatedZ)
        (candidatIndices S nodesArr (getNode nodesArr S.initialNodeIndex) ++
          [S.initialNodeIndex]) ≠ S.initialNodeIndex) :
    2 ≤ (S.reducer nodesArr).1.reducedSlice.count S.initialNodeIndex := by
  unfold SliceSubSet.reducer
  rw [h1, reducerLoop]
  have hstep : reducerStep (S.reducerStrategyMin nodesArr)
      (S.addToReducedSlice S.initialNodeIndex, nodesArr) S.initialNodeIndex =
      ((S.addToReducedSlice S.initialNodeIndex).addToReducedSlice S.initialNodeIndex,
       modifyNode nodesArr S.initialNodeIndex Node.markAsVisited) := by
    simp only [reducerStep, h2, Bool.false_eq_true, if_false,
      candidatIndices_mark, candidatIndices_addToReducedSlice, pyExtremalBy_mark]
    rw [if_neg (by simpa [List.isEmpty_iff] using h3), if_pos (bne_iff_ne.mpr h4)]
  rw [hstep]
  obtain ⟨extra, hres, -⟩ := reducerLoop_reducedSlice (S.reducerStrategyMin nodesArr) rest
    ((S.addToReducedSlice S.initialNodeIndex).addToReducedSlice S.initialNodeIndex)
    (modifyNode nodesArr S.initialNodeIndex Node.markAsVisited)
  rw [hres]
  simp [SliceSubSet.addToReducedSlice, List.count_append]
  omega

theorem claimC10_witness :
    2 ≤ (twoBandSub.reducer twoBandArr).1.reducedSlice.count twoBandSub.initialNodeIndex :=
  claimC10 twoBandSub twoBandArr [] (by decide) (by decide) (by decide) (by decide)

end ClaimsBatch1

section ClaimsBatch2

variable {α : Type} [LinearOrderedCommRing α]

theorem modifyNode_getElem_ne (nodesArr : List (Node α)) (i j : Nat)
    (f : Node α → Node α) (h : i ≠ j) :
    (modifyNode nodesArr i f)[j]? = nodesArr[j]? := by
  simp [modifyNode, List.getElem?_set_ne h]

theorem highlightLoop_append_bad (subSlicesArr : List SliceSubSet) (badIndex : Nat)
    (hbad : subSlicesArr.length ≤ badIndex) (rest : List Nat) :
    ∀ (pre : List Nat) (select : List Bool), (∀ i ∈ pre, i < subSlicesArr.length) →
      highlightLoop subSlicesArr (pre ++ badIndex :: rest) select =
        ((highlightLoop subSlicesArr pre select).1, some PyError.indexOutOfRange) := by
  intro pre
  induction pre with
  | nil =>
    intro select _
    simp [highlightLoop, List.getElem?_eq_none hbad]
  | cons i pre ih =>
    intro select hvalid
    have hi : i < subSlicesArr.length := hvalid i (List.mem_cons_self _ _)
    rw [List.cons_append]
    simp only [highlightLoop, List.getElem?_eq_getElem hi]
    exact ih _ (fun j hj => hvalid j (List.mem_cons_of_mem _ hj))

/-- C3 (counterexample): on the tower scenario, requesting band 0 with
subset indices [0, 5] raises the index error (5 is out of range) but the
selection flags of subset 0 were already set before the error — state IS
mutated before the error surfaces. -/
theorem claimC3_counterexample :
    scenarioTowerState.slicesHighlighter [false, false, false] 0 [0, 5] =
      ([false, true, false], some PyError.indexOutOfRange) ∧
    ([false, true, false] : List Bool) ≠ [false, false, false] :=
  ⟨by decide, by decide⟩

omit [LinearOrderedCommRing α] in
/-- C3 (amended): a band index beyond the produced bands raises the index
error with no flag mutated; a subset index beyond the band's subset list
raises the index error, but the selections requested by the valid indices
preceding the first invalid one have already been applied (the source's
`except KeyError` clause never catches the `IndexError` of list
indexing). -/
theorem claimC3_amended (s : SlicerSoliton α) (select : List Bool) (sliceIndex : Nat)
    (pre rest : List Nat) (badIndex : Nat) :
    (s.subSlicesDict.length ≤ sliceIndex →
      ∀ subSlicesIndices, s.slicesHighlighter select sliceIndex subSlicesIndices =
        (select, some PyError.indexOutOfRange)) ∧
    (sliceIndex < s.subSlicesDict.length →
      (∀ i ∈ pre, i < (bandSubsets s sliceIndex).length) →
      (bandSubsets s sliceIndex).length ≤ badIndex →
      s.slicesHighlighter select sliceIndex (pre ++ badIndex :: rest) =
        ((highlightLoop (bandSubsets s sliceIndex) pre select).1,
         some PyError.indexOutOfRange)) := by
  constructor
  · intro h subSlicesIndices
    have hnone : (s.subSlicesDict.map Prod.fst)[sliceIndex]? = none :=
      List.getElem?_eq_none (by simpa using h)
    simp [SlicerSoliton.slicesHighlighter, hnone]
  · intro h hvalid hbad
    have hlt : sliceIndex < (s.subSlicesDict.map Prod.fst).length := by simpa using h
    have hgetd : (s.subSlicesDict.map Prod.fst).getD sliceIndex "" =
        (s.subSlicesDict.map Prod.fst)[sliceIndex] := by
      rw [List.getD_eq_getElem?_getD, List.getElem?_eq_getElem hlt]
      rfl
    have hsome : (s.subSlicesDict.map Prod.fst)[sliceIndex]? =
        some ((s.subSlicesDict.map Prod.fst).getD sliceIndex "") := by
      rw [List.getElem?_eq_getElem hlt, hgetd]
    have hne : (pre ++ badIndex :: rest).isEmpty = false := by simp
    simp only [SlicerSoliton.slicesHighlighter, hsome, hne, Bool.false_eq_true, if_false]
    exact highlightLoop_append_bad (bandSubsets s sliceIndex) badIndex hbad rest pre select hvalid

theorem claimC3_amended_witness :
    scenarioTowerState.slicesHighlighter [false, false, false] 0 ([0] ++ 5 :: []) =
      ((highlightLoop (bandSubsets scenarioTowerState 0) [0] [false, false, false]).1,
       some PyError.indexOutOfRange) :=
  (claimC3_amended scenarioTowerState [false, false, false] 0 [0] [] 5).2
    (by decide) (by decide) (by decide)

theorem buildGraph_getElemZero (edges : List (Nat × Nat)) :
    ∀ nodesArr nodesArr2 : List (Node α), (∀ e ∈ edges, e.1 ≠ 0 ∧ e.2 ≠ 0) →
      buildGraph nodesArr edges = .ok nodesArr2 → nodesArr2[0]? = nodesArr[0]? := by
  induction edges with
  | nil =>
    intro arr arr2 _ h
    injection h with h
    rw [h]
  | cons e restE ih =>
    intro arr arr2 hne hbg
    have he := hne e (List.mem_cons_self _ _)
    simp only [buildGraph] at hbg
    split_ifs at hbg with h1 h2
    have step := ih _ _ (fun e2 hm => hne e2 (List.mem_cons_of_mem _ hm)) hbg
    rw [step, modifyNode_getElem_ne _ _ _ _ he.2, modifyNode_getElem_ne _ _ _ _ he.1]

/-- C8: with an empty vertex list, an empty edge list, or no edge incident
to vertex 0, the pipeline aborts with the index error raised while
computing the spacing unit (or already while building the graph), before
any band or subset labeling can happen — the run produces no state at
all. -/
theorem claimC8 (bpyVerticesArr : List (Vec3 α)) (bpyEdgesArr : List (Nat × Nat))
    (npNormal : Vec3 α) (base : String)
    (h : bpyVerticesArr = [] ∨ bpyEdgesArr = [] ∨ ∀ e ∈ bpyEdgesArr, e.1 ≠ 0 ∧ e.2 ≠ 0) :
    runPipeline bpyVerticesArr bpyEdgesArr npNormal base = .error PyError.indexOutOfRange := by
  suffices hmk : mkSlicerSoliton bpyVerticesArr bpyEdgesArr npNormal =
      .error PyError.indexOutOfRange by
    simp [runPipeline, hmk, bind, Except.bind]
  rcases h with rfl | rfl | hne
  · cases bpyEdgesArr with
    | nil => simp [mkSlicerSoliton, buildGraph, cubeEdgeLengthSqEval, bind, Except.bind]
    | cons e restE => simp [mkSlicerSoliton, buildGraph, bind, Except.bind]
  · cases bpyVerticesArr with
    | nil => simp [mkSlicerSoliton, buildGraph, cubeEdgeLengthSqEval, bind, Except.bind]
    | cons v restV =>
      simp [mkSlicerSoliton, buildGraph, cubeEdgeLengthSqEval, Node.init, bind, Except.bind]
  · cases bpyVerticesArr with
    | nil =>
      cases bpyEdgesArr with
      | nil => simp [mkSlicerSoliton, buildGraph, cubeEdgeLengthSqEval, bind, Except.bind]
      | cons e restE => simp [mkSlicerSoliton, buildGraph, bind, Except.bind]
    | cons v restV =>
      cases hbg : buildGraph ((v :: restV).map (fun vertex => Node.init vertex npNormal))
          bpyEdgesArr with
      | error err =>
        cases err
        simp only [mkSlicerSoliton, bind, Except.bind]
        rw [hbg]
      | ok arr2 =>
        have h0 : arr2[0]? = some (Node.init v npNormal) := by
          simpa using buildGraph_getElemZero bpyEdgesArr _ _ hne hbg
        simp only [mkSlicerSoliton, bind, Except.bind]
        rw [hbg]
        simp [cubeEdgeLengthSqEval, h0, Node.init]

theorem claimC8_witness :
    runPipeline ([⟨0, 0, 0⟩, ⟨1, 0, 0⟩] : List (Vec3 ℤ)) [] ⟨0, 0, 1⟩ "slice" =
      .error PyError.indexOutOfRange :=
  claimC8 _ _ _ _ (Or.inr (Or.inl rfl))

end ClaimsBatch2

section ClaimsBatch3

variable {α : Type} [LinearOrderedCommRing α]

theorem foldl_bfsVisit_members (nbs : List Nat) :
    ∀ st : SliceSubSet × List (Node α) × List Nat,
      ∃ extra, (nbs.foldl bfsVisit st).1 =
        { st.1 with sliceSubSetNodes := st.1.sliceSubSetNodes ++ extra } := by
  induction nbs with
  | nil =>
    intro st
    exact ⟨[], by simp⟩
  | cons nb rest ih =>
    intro st
    rw [List.foldl_cons]
    by_cases hc : (getNode st.2.1 nb).sliceSubSetName = "" ∧
        (getNode st.2.1 nb).sliceName = st.1.sliceName
    · have hstep : bfsVisit st nb =
          (st.1.addNode nb,
           modifyNode st.2.1 nb (fun n => n.setSliceSubSetName st.1.ownName),
           st.2.2 ++ [nb]) := by
        simp [bfsVisit, hc]
      rw [hstep]
      obtain ⟨extra, hres⟩ := ih _
      refine ⟨nb :: extra, ?_⟩
      rw [hres]
      simp [SliceSubSet.addNode]
    · have hstep : bfsVisit st nb = st := by
        simp [bfsVisit, hc]
      rw [hstep]
      exact ih st

theorem bfsLoop_members (fuel : Nat) :
    ∀ (S : SliceSubSet) (nodesArr : List (Node α)) (queue : List Nat),
      ∃ extra, (bfsLoop fuel S nodesArr queue).1 =
        { S with sliceSubSetNodes := S.sliceSubSetNodes ++ extra } := by
  induction fuel with
  | zero =>
    intro S nodesArr queue
    exact ⟨[], by simp [bfsLoop]⟩
  | succ fuel ih =>
    intro S nodesArr queue
    cases queue with
    | nil => exact ⟨[], by simp [bfsLoop]⟩
    | cons curIdx queueRest =>
      simp only [bfsLoop]
      obtain ⟨e1, h1⟩ := foldl_bfsVisit_members
        (getNode nodesArr curIdx).neighboursIndices (S, nodesArr, queueRest)
      obtain ⟨e2, h2⟩ := ih
        ((getNode nodesArr curIdx).neighboursIndices.foldl bfsVisit (S, nodesArr, queueRest)).1
        ((getNode nodesArr curIdx).neighboursIndices.foldl bfsVisit (S, nodesArr, queueRest)).2.1
        ((getNode nodesArr curIdx).neighboursIndices.foldl bfsVisit (S, nodesArr, queueRest)).2.2
      refine ⟨e1 ++ e2, ?_⟩
      rw [h2, h1]
      simp [List.append_assoc]

theorem bfs_members (S : SliceSubSet) (initialNodeIndex : Nat) (nodesArr : List (Node α)) :
    ∃ extra, (S.bfs initialNodeIndex nodesArr).1 =
      { S with sliceSubSetNodes := S.sliceSubSetNodes ++ initialNodeIndex :: extra } := by
  simp only [SliceSubSet.bfs]
  obtain ⟨extra, h⟩ := bfsLoop_members
    ((modifyNode nodesArr initialNodeIndex
        (fun n => n.setSliceSubSetName (S.addNode initialNodeIndex).nodeSubSetName)).length + 1)
    (S.addNode initialNodeIndex)
    (modifyNode nodesArr initialNodeIndex
        (fun n => n.setSliceSubSetName (S.addNode initialNodeIndex).nodeSubSetName))
    [initialNodeIndex]
  refine ⟨extra, ?_⟩
  rw [h]
  simp [SliceSubSet.addNode]

theorem reducer_reducedSlice (S : SliceSubSet) (nodesArr : List (Node α)) :
    ∃ extra, (S.reducer nodesArr).1 =
      { S with reducedSlice := S.reducedSlice ++ S.initialNodeIndex :: extra } ∧
      ∀ i ∈ extra, i ∈ S.sliceSubSetNodes := by
  unfold SliceSubSet.reducer
  obtain ⟨extra, h1, h2⟩ := reducerLoop_reducedSlice (S.reducerStrategyMin nodesArr)
    S.sliceSubSetNodes (S.addToReducedSlice S.initialNodeIndex) nodesArr
  refine ⟨extra, ?_, h2⟩
  rw [h1]
  simp [SliceSubSet.addToReducedSlice]

theorem bfs_reducer_chainInvariant (S : SliceSubSet) (initialNodeIndex : Nat)
    (nodesArr : List (Node α)) (hchain : S.reducedSlice = [])
    (hinit : S.initialNodeIndex = initialNodeIndex) :
    (((S.bfs initialNodeIndex nodesArr).1.reducer
        (S.bfs initialNodeIndex nodesArr).2).1).chainInvariant := by
  obtain ⟨extraM, hM⟩ := bfs_members S initialNodeIndex nodesArr
  obtain ⟨extraR, hR, hsub⟩ := reducer_reducedSlice (S.bfs initialNodeIndex nodesArr).1
    (S.bfs initialNodeIndex nodesArr).2
  rw [hR, hM]
  constructor
  · intro i hi
    simp only [hchain, List.nil_append] at hi ⊢
    rcases List.mem_cons.mp hi with rfl | hi
    · rw [hinit]
      exact List.mem_append_right _ (List.mem_cons_self _ _)
    · have := hsub i hi
      rw [hM] at this
      exact this
  · simp [hchain]

omit [LinearOrderedCommRing α] in
theorem initiate_dict_mem (s : SlicerSoliton α) (node : Node α) (p : String × List SliceSubSet)
    (hp : p ∈ (s.initiateNewSubSlicesList node).subSlicesDict) :
    p ∈ s.subSlicesDict ∨ p.2 = [] := by
  unfold SlicerSoliton.initiateNewSubSlicesList at hp
  split_ifs at hp with h
  · exact Or.inl hp
  · rcases List.mem_append.mp hp with h1 | h1
    · exact Or.inl h1
    · right
      rw [List.mem_singleton.mp h1]

omit [LinearOrderedCommRing α] in
theorem append_dict_mem (s : SlicerSoliton α) (subSlice : SliceSubSet)
    (p : String × List SliceSubSet)
    (hp : p ∈ (s.appendNewSubSlice subSlice).subSlicesDict) :
    ∃ q ∈ s.subSlicesDict, p = q ∨ p = (q.1, q.2 ++ [subSlice]) := by
  simp only [SlicerSoliton.appendNewSubSlice] at hp
  obtain ⟨q, hq, hfq⟩ := List.mem_map.mp hp
  refine ⟨q, hq, ?_⟩
  by_cases h : q.1 = subSlice.sliceName
  · right
    rw [← hfq]
    simp [h]
  · left
    rw [← hfq]
    simp [h]

theorem sliceRunnerStep_dictInv (s : SlicerSoliton α) (nodeIndex : Nat)
    (h : ∀ p ∈ s.subSlicesDict, ∀ S ∈ p.2, S.chainInvariant) :
    ∀ p ∈ (s.sliceRunnerStep nodeIndex).subSlicesDict, ∀ S ∈ p.2, S.chainInvariant := by
  have h1 : ∀ p ∈ (s.initiateNewSubSlicesList (getNode s.nodesArr nodeIndex)).subSlicesDict,
      ∀ S ∈ p.2, S.chainInvariant := by
    intro p hp S hS
    rcases initiate_dict_mem s _ p hp with hmem | hempty
    · exact h p hmem S hS
    · rw [hempty] at hS
      cases hS
  simp only [SlicerSoliton.sliceRunnerStep]
  split_ifs with hc1 hc2
  · intro p hp S hS
    rcases append_dict_mem _ _ p hp with ⟨q, hq, hcase⟩
    rcases hcase with heq | heq
    · rw [heq] at hS
      exact h1 q hq S hS
    · rw [heq] at hS
      rcases List.mem_append.mp hS with hS2 | hS2
      · exact h1 q hq S hS2
      · rw [List.mem_singleton.mp hS2]
        exact bfs_reducer_chainInvariant _ _ _ rfl rfl
  · exact h1
  · exact h1

theorem foldl_sliceRunnerStep_dictInv (l : List Nat) :
    ∀ s : SlicerSoliton α, (∀ p ∈ s.subSlicesDict, ∀ S ∈ p.2, S.chainInvariant) →
      ∀ p ∈ (l.foldl SlicerSoliton.sliceRunnerStep s).subSlicesDict, ∀ S ∈ p.2,
        S.chainInvariant := by
  induction l with
  | nil =>
    intro s h
    exact h
  | cons i rest ih =>
    intro s h
    exact ih _ (sliceRunnerStep_dictInv s i h)

theorem slicer_subSlicesDict (s : SlicerSoliton α) :
    s.slicer.subSlicesDict = s.subSlicesDict := rfl

omit [LinearOrderedCommRing α] in
theorem setSliceNameBase_subSlicesDict (s : SlicerSoliton α) (b : String) :
    (s.setSliceNameBase b).subSlicesDict = s.subSlicesDict := rfl

theorem runPipeline_ok (bpyVerticesArr : List (Vec3 α)) (bpyEdgesArr : List (Nat × Nat))
    (npNormal : Vec3 α) (base : String) (s : SlicerSoliton α)
    (hrun : runPipeline bpyVerticesArr bpyEdgesArr npNormal base = .ok s) :
    ∃ s0, mkSlicerSoliton bpyVerticesArr bpyEdgesArr npNormal = .ok s0 ∧
      s = ((s0.setSliceNameBase base).slicer).sliceRunner := by
  unfold runPipeline at hrun
  cases hmk : mkSlicerSoliton bpyVerticesArr bpyEdgesArr npNormal with
  | error e =>
    rw [hmk] at hrun
    cases hrun
  | ok s0 =>
    rw [hmk] at hrun
    refine ⟨s0, rfl, ?_⟩
    simp only [bind, Except.bind, pure, Except.pure] at hrun
    injection hrun with hrun
    exact hrun.symm

theorem mkSlicerSoliton_dict (bpyVerticesArr : List (Vec3 α)) (bpyEdgesArr : List (Nat × Nat))
    (npNormal : Vec3 α) (s0 : SlicerSoliton α)
    (h : mkSlicerSoliton bpyVerticesArr bpyEdgesArr npNormal = .ok s0) :
    s0.subSlicesDict = [] := by
  simp only [mkSlicerSoliton, bind, Except.bind] at h
  split at h
  · cases h
  · split at h
    · cases h
    · simp only [pure, Except.pure] at h
      injection h with h
      rw [← h]

/-- C5: for every subset stored in the dictionary produced by the pipeline,
every vertex id of the reduced chain is a member of the subset, and the
chain's first element is the subset's seed vertex id. -/
theorem claimC5 (bpyVerticesArr : List (Vec3 α)) (bpyEdgesArr : List (Nat × Nat))
    (npNormal : Vec3 α) (base : String) (s : SlicerSoliton α)
    (hrun : runPipeline bpyVerticesArr bpyEdgesArr npNormal base = .ok s) :
    ∀ p ∈ s.subSlicesDict, ∀ S ∈ p.2,
      (∀ i ∈ S.reducedSlice, i ∈ S.sliceSubSetNodes) ∧
        S.reducedSlice.head? = some S.initialNodeIndex := by
  obtain ⟨s0, hmk, rfl⟩ := runPipeline_ok _ _ _ _ _ hrun
  have hd : ((s0.setSliceNameBase base).slicer).subSlicesDict = [] := by
    rw [slicer_subSlicesDict, setSliceNameBase_subSlicesDict,
      mkSlicerSoliton_dict _ _ _ _ hmk]
  intro p hp S hS
  exact foldl_sliceRunnerStep_dictInv _ _ (by rw [hd]; intro p hp; cases hp) p hp S hS

theorem claimC5_witness :
    ((scenarioTowerState.subSlicesDict.headD ("", [])).2.headD default).reducedSlice.head? =
      some ((scenarioTowerState.subSlicesDict.headD ("", [])).2.headD default).initialNodeIndex :=
  (claimC5 towerVerts towerEdges ⟨0, 0, 1⟩ "slice" scenarioTowerState (by decide)
    (scenarioTowerState.subSlicesDict.headD ("", [])) (by decide)
    ((scenarioTowerState.subSlicesDict.headD ("", [])).2.headD default) (by decide)).2

end ClaimsBatch3

section ClaimsBatch4

variable {α : Type} [LinearOrderedCommRing α]

theorem toDigitsCore_length_le (b : Nat) :
    ∀ (fuel n : Nat) (ds : List Char), ds.length ≤ (Nat.toDigitsCore b fuel n ds).length := by
  intro fuel
  induction fuel with
  | zero =>
    intro n ds
    exact Nat.le_refl _
  | succ fuel ih =>
    intro n ds
    have hunfold : Nat.toDigitsCore b (fuel + 1) n ds =
        if n / b = 0 then (n % b).digitChar :: ds
        else Nat.toDigitsCore b fuel (n / b) ((n % b).digitChar :: ds) := rfl
    rw [hunfold]
    split_ifs
    · simp
    · calc ds.length ≤ ((n % b).digitChar :: ds).length := by simp
        _ ≤ _ := ih (n / b) _

theorem natRepr_ne_empty (n : Nat) : Nat.repr n ≠ "" := by
  intro h
  have hd : (Nat.toDigits 10 n).length = 0 := by
    simpa [Nat.repr, List.asString] using congrArg (fun s => s.data.length) h
  have h1 : 1 ≤ (Nat.toDigits 10 n).length := by
    unfold Nat.toDigits
    have hunfold : Nat.toDigitsCore 10 (n + 1) n [] =
        if n / 10 = 0 then [(n % 10).digitChar]
        else Nat.toDigitsCore 10 n (n / 10) [(n % 10).digitChar] := rfl
    rw [hunfold]
    split_ifs
    · simp
    · calc 1 = ([(n % 10).digitChar] : List Char).length := by simp
        _ ≤ _ := toDigitsCore_length_le 10 n (n / 10) _
  omega

theorem append_natRepr_ne_empty (base : String) (k : Nat) : base ++ Nat.repr k ≠ "" := by
  intro h
  have hdata : base.data ++ (Nat.repr k).data = [] := by
    simpa [String.data_append] using congrArg String.data h
  have h2 := (List.append_eq_nil.mp hdata).2
  exact natRepr_ne_empty k (String.ext_iff.mpr h2)

theorem slicer_foldl_events (dsq : α) (sliceBaseID : String) (l : List Nat) :
    ∀ st : SlicerState α, st.currentSliceName = sliceBaseID ++ Nat.repr st.sliceIndex →
      ((l.foldl (slicerStep dsq sliceBaseID) st).currentSliceName =
        sliceBaseID ++ Nat.repr (l.foldl (slicerStep dsq sliceBaseID) st).sliceIndex) ∧
      ((l.foldl (slicerStep dsq sliceBaseID) st).events.map SliceEvent.index =
        st.events.map SliceEvent.index ++ l) ∧
      (∀ ev ∈ (l.foldl (slicerStep dsq sliceBaseID) st).events,
        ev ∈ st.events ∨
          ((∃ k, ev.label = sliceBaseID ++ Nat.repr k) ∧
            (ev.projection = ev.anchorProjection ∨
              (ev.projection - ev.anchorProjection) ^ 2 ≤ 3 * dsq))) := by
  induction l with
  | nil =>
    intro st hname
    exact ⟨hname, by simp, fun ev hev => Or.inl hev⟩
  | cons index rest ih =>
    intro st hname
    rw [List.foldl_cons]
    by_cases hdiv : divergencyCheck dsq (getNode st.nodesArr st.baseIdx).rotatedZ
        (getNode st.nodesArr index).rotatedZ
    · have hstep : slicerStep dsq sliceBaseID st index =
          { st with
            nodesArr := modifyNode st.nodesArr index
              (fun n => n.setSliceName st.currentSliceName)
            events := st.events ++
              [⟨index, st.currentSliceName, st.baseIdx,
                (getNode st.nodesArr index).rotatedZ,
                (getNode st.nodesArr st.baseIdx).rotatedZ⟩] } := by
        simp [slicerStep, hdiv]
      have hbound : ((getNode st.nodesArr st.baseIdx).rotatedZ -
          (getNode st.nodesArr index).rotatedZ) ^ 2 ≤ 3 * dsq := by
        simpa [divergencyCheck] using hdiv
      obtain ⟨g1, g2, g3⟩ := ih (slicerStep dsq sliceBaseID st index)
        (by rw [hstep]; exact hname)
      refine ⟨g1, ?_, ?_⟩
      · rw [g2, hstep]
        simp
      · intro ev hev
        rcases g3 ev hev with hin | hgood
        · rw [hstep] at hin
          rcases List.mem_append.mp hin with hin2 | hin2
          · exact Or.inl hin2
          · rw [List.mem_singleton.mp hin2]
            refine Or.inr ⟨⟨st.sliceIndex, hname⟩, Or.inr ?_⟩
            have hsym : ((getNode st.nodesArr index).rotatedZ -
                (getNode st.nodesArr st.baseIdx).rotatedZ) ^ 2 =
                ((getNode st.nodesArr st.baseIdx).rotatedZ -
                  (getNode st.nodesArr index).rotatedZ) ^ 2 := by ring
            exact hsym ▸ hbound
        · exact Or.inr hgood
    · have hstep : slicerStep dsq sliceBaseID st index =
          { nodesArr := modifyNode st.nodesArr index
              (fun n => n.setSliceName (sliceBaseID ++ Nat.repr (st.sliceIndex + 1)))
            baseIdx := index
            sliceIndex := st.sliceIndex + 1
            currentSliceName := sliceBaseID ++ Nat.repr (st.sliceIndex + 1)
            events := st.events ++
              [⟨index, sliceBaseID ++ Nat.repr (st.sliceIndex + 1), index,
                (getNode st.nodesArr index).rotatedZ,
                (getNode st.nodesArr index).rotatedZ⟩] } := by
        simp [slicerStep, hdiv]
      obtain ⟨g1, g2, g3⟩ := ih (slicerStep dsq sliceBaseID st index) (by rw [hstep])
      refine ⟨g1, ?_, ?_⟩
      · rw [g2, hstep]
        simp
      · intro ev hev
        rcases g3 ev hev with hin | hgood
        · rw [hstep] at hin
          rcases List.mem_append.mp hin with hin2 | hin2
          · exact Or.inl hin2
          · rw [List.mem_singleton.mp hin2]
            exact Or.inr ⟨⟨st.sliceIndex + 1, rfl⟩, Or.inl rfl⟩
        · exact Or.inr hgood

theorem slicer_events_spec (s : SlicerSoliton α) (h0 : s.sliceEvents = []) :
    s.slicer.sliceEvents.map SliceEvent.index = s.sortedNodesIndices ∧
    ∀ ev ∈ s.slicer.sliceEvents,
      (∃ k, ev.label = s.sliceNameBase ++ Nat.repr k) ∧
      (ev.projection = ev.anchorProjection ∨
        (ev.projection - ev.anchorProjection) ^ 2 ≤ 3 * s.cubeEdgeLengthSq) := by
  obtain ⟨g1, g2, g3⟩ := slicer_foldl_events s.cubeEdgeLengthSq s.sliceNameBase
    s.sortedNodesIndices
    { nodesArr := s.nodesArr, baseIdx := s.sortedNodesIndices.headD 0, sliceIndex := 0,
      currentSliceName := s.sliceNameBase ++ Nat.repr 0, events := [] } rfl
  have hev : s.slicer.sliceEvents = s.sliceEvents ++
      (s.sortedNodesIndices.foldl (slicerStep s.cubeEdgeLengthSq s.sliceNameBase)
        { nodesArr := s.nodesArr, baseIdx := s.sortedNodesIndices.headD 0, sliceIndex := 0,
          currentSliceName := s.sliceNameBase ++ Nat.repr 0, events := [] }).events := rfl
  constructor
  · rw [hev, h0]
    simpa using g2
  · intro ev hmem
    rw [hev, h0, List.nil_append] at hmem
    rcases g3 ev hmem with hin | hgood
    · cases hin
    · exact hgood

omit [LinearOrderedCommRing α] in
theorem initiate_sliceEvents (s : SlicerSoliton α) (node : Node α) :
    (s.initiateNewSubSlicesList node).sliceEvents = s.sliceEvents := by
  unfold SlicerSoliton.initiateNewSubSlicesList
  split_ifs <;> rfl

theorem sliceRunnerStep_sliceEvents (s : SlicerSoliton α) (i : Nat) :
    (s.sliceRunnerStep i).sliceEvents = s.sliceEvents := by
  simp only [SlicerSoliton.sliceRunnerStep]
  split_ifs <;> exact initiate_sliceEvents s _

omit [LinearOrderedCommRing α] in
theorem initiate_cubeEdgeLengthSq (s : SlicerSoliton α) (node : Node α) :
    (s.initiateNewSubSlicesList node).cubeEdgeLengthSq = s.cubeEdgeLengthSq := by
  unfold SlicerSoliton.initiateNewSubSlicesList
  split_ifs <;> rfl

theorem sliceRunnerStep_cubeEdgeLengthSq (s : SlicerSoliton α) (i : Nat) :
    (s.sliceRunnerStep i).cubeEdgeLengthSq = s.cubeEdgeLengthSq := by
  simp only [SlicerSoliton.sliceRunnerStep]
  split_ifs <;> exact initiate_cubeEdgeLengthSq s _

theorem foldl_sliceRunnerStep_proj {β : Type} (g : SlicerSoliton α → β)
    (hg : ∀ (s : SlicerSoliton α) (i : Nat), g (s.sliceRunnerStep i) = g s) (l : List Nat) :
    ∀ s : SlicerSoliton α, g (l.foldl SlicerSoliton.sliceRunnerStep s) = g s := by
  induction l with
  | nil =>
    intro s
    rfl
  | cons i rest ih =>
    intro s
    rw [List.foldl_cons, ih, hg]

theorem cubeEdgeLengthSqEval_ok (nodesArr : List (Node α)) (dsq : α)
    (h : cubeEdgeLengthSqEval nodesArr = .ok dsq) : ∃ vd : Vec3 α, dsq = vd.dot vd := by
  unfold cubeEdgeLengthSqEval at h
  split at h
  · cases h
  · split at h
    · cases h
    · injection h with h
      exact ⟨_, h.symm⟩

theorem Vec3.dot_self_nonneg (v : Vec3 α) : 0 ≤ v.dot v :=
  add_nonneg (add_nonneg (mul_self_nonneg _) (mul_self_nonneg _)) (mul_self_nonneg _)

theorem mkSlicerSoliton_ok_spec (bpyVerticesArr : List (Vec3 α))
    (bpyEdgesArr : List (Nat × Nat)) (npNormal : Vec3 α) (s0 : SlicerSoliton α)
    (h : mkSlicerSoliton bpyVerticesArr bpyEdgesArr npNormal = .ok s0) :
    s0.sliceEvents = [] ∧ s0.sliceNameBase = "" ∧
    s0.sortedNodesIndices =
      List.insertionSort
        (sortKeyLe (bpyVerticesArr.map fun vertex => Node.init vertex npNormal))
        (List.range (bpyVerticesArr.map fun vertex => Node.init vertex npNormal).length) ∧
    ∃ vd : Vec3 α, s0.cubeEdgeLengthSq = vd.dot vd := by
  simp only [mkSlicerSoliton, bind, Except.bind] at h
  split at h
  · cases h
  · rename_i arr heq
    split at h
    · cases h
    · rename_i dsq heq2
      simp only [pure, Except.pure] at h
      injection h with h
      rw [← h]
      refine ⟨rfl, rfl, rfl, ?_⟩
      exact cubeEdgeLengthSqEval_ok arr dsq heq2

/-- C6: in every successful pipeline run, each vertex receives a band label
exactly once (the classifier trace holds exactly one labeling event per
vertex), and every label written by the classifier is a non-empty string. -/
theorem claimC6 (bpyVerticesArr : List (Vec3 α)) (bpyEdgesArr : List (Nat × Nat))
    (npNormal : Vec3 α) (base : String) (s : SlicerSoliton α)
    (hrun : runPipeline bpyVerticesArr bpyEdgesArr npNormal base = .ok s) (v : Nat)
    (hv : v < bpyVerticesArr.length) :
    s.sliceEvents.countP (fun ev => ev.index == v) = 1 ∧
      ∀ ev ∈ s.sliceEvents, ev.label ≠ "" := by
  obtain ⟨s0, hmk, rfl⟩ := runPipeline_ok _ _ _ _ _ hrun
  obtain ⟨hev0, hbase0, hsorted, -⟩ := mkSlicerSoliton_ok_spec _ _ _ _ hmk
  obtain ⟨hmap, hspec⟩ := slicer_events_spec (s0.setSliceNameBase base) hev0
  have hfinal : ((s0.setSliceNameBase base).slicer.sliceRunner).sliceEvents =
      (s0.setSliceNameBase base).slicer.sliceEvents :=
    foldl_sliceRunnerStep_proj (fun s => s.sliceEvents) sliceRunnerStep_sliceEvents _ _
  constructor
  · rw [hfinal]
    have h1 : (s0.setSliceNameBase base).slicer.sliceEvents.countP (fun ev => ev.index == v) =
        ((s0.setSliceNameBase base).slicer.sliceEvents.map SliceEvent.index).countP
          (fun i => i == v) := by
      rw [List.countP_map]
      rfl
    rw [h1, hmap]
    have hperm : ((s0.setSliceNameBase base).sortedNodesIndices).Perm
        (List.range (bpyVerticesArr.map fun vertex => Node.init vertex npNormal).length) := by
      rw [show (s0.setSliceNameBase base).sortedNodesIndices = s0.sortedNodesIndices from rfl,
        hsorted]
      exact List.perm_insertionSort _ _
    rw [hperm.countP_eq]
    have h2 : (List.range (bpyVerticesArr.map fun vertex =>
        Node.init vertex npNormal).length).countP (fun i => i == v) =
        (List.range (bpyVerticesArr.map fun vertex =>
          Node.init vertex npNormal).length).count v := rfl
    rw [h2]
    exact List.count_eq_one_of_mem (List.nodup_range _)
      (List.mem_range.mpr (by simpa using hv))
  · intro ev hmem
    rw [hfinal] at hmem
    obtain ⟨⟨k, hk⟩, -⟩ := hspec ev hmem
    rw [hk]
    exact append_natRepr_ne_empty _ _

theorem claimC6_witness :
    scenarioAState.sliceEvents.countP (fun ev => ev.index == 0) = 1 :=
  (claimC6 cubeVerts cubeEdges ⟨0, 0, 1⟩ "slice" scenarioAState (by decide) 0
    (by decide)).1

/-- C7: in every successful pipeline run, every labeling event of the
classifier satisfies the band-width bound: the absolute difference between
the labeled vertex's projection and the projection of the anchor of the
band it joins is at most the threshold spacingUnit·√3 (a vertex that opens
a new band is its own anchor).  The scalars are carried into `ℝ` by any
order-preserving ring embedding `f`. -/
theorem claimC7 (f : α →+*o ℝ) (bpyVerticesArr : List (Vec3 α))
    (bpyEdgesArr : List (Nat × Nat)) (npNormal : Vec3 α) (base : String)
    (s : SlicerSoliton α)
    (hrun : runPipeline bpyVerticesArr bpyEdgesArr npNormal base = .ok s) :
    ∀ ev ∈ s.sliceEvents,
      |f ev.projection - f ev.anchorProjection| ≤
        Real.sqrt (f s.cubeEdgeLengthSq) * Real.sqrt 3 := by
  obtain ⟨s0, hmk, rfl⟩ := runPipeline_ok _ _ _ _ _ hrun
  obtain ⟨hev0, hbase0, hsorted, vd, hdsq⟩ := mkSlicerSoliton_ok_spec _ _ _ _ hmk
  obtain ⟨hmap, hspec⟩ := slicer_events_spec (s0.setSliceNameBase base) hev0
  have hfinal : ((s0.setSliceNameBase base).slicer.sliceRunner).sliceEvents =
      (s0.setSliceNameBase base).slicer.sliceEvents :=
    foldl_sliceRunnerStep_proj (fun s => s.sliceEvents) sliceRunnerStep_sliceEvents _ _
  have hdpres : ((s0.setSliceNameBase base).slicer.sliceRunner).cubeEdgeLengthSq =
      s0.cubeEdgeLengthSq :=
    foldl_sliceRunnerStep_proj (fun s => s.cubeEdgeLengthSq)
      sliceRunnerStep_cubeEdgeLengthSq _ _
  intro ev hmem
  rw [hfinal] at hmem
  rw [hdpres]
  obtain ⟨-, hbound⟩ := hspec ev hmem
  rcases hbound with heq | hb
  · rw [heq, sub_self, abs_zero]
    exact mul_nonneg (Real.sqrt_nonneg _) (Real.sqrt_nonneg _)
  · have hmono : f ((ev.projection - ev.anchorProjection) ^ 2) ≤
        f (3 * s0.cubeEdgeLengthSq) := OrderHomClass.monotone f hb
    rw [map_mul, map_pow, map_sub, map_ofNat] at hmono
    have habs : |f ev.projection - f ev.anchorProjection| =
        Real.sqrt ((f ev.projection - f ev.anchorProjection) ^ 2) :=
      (Real.sqrt_sq_eq_abs _).symm
    rw [habs]
    calc Real.sqrt ((f ev.projection - f ev.anchorProjection) ^ 2) ≤
        Real.sqrt (3 * f s0.cubeEdgeLengthSq) := Real.sqrt_le_sqrt hmono
      _ = Real.sqrt 3 * Real.sqrt (f s0.cubeEdgeLengthSq) :=
        Real.sqrt_mul (by norm_num) _
      _ = Real.sqrt (f s0.cubeEdgeLengthSq) * Real.sqrt 3 := mul_comm _ _

theorem claimC7_witness :
    |intCastOrderRingHom (⟨0, "slice0", 0, 0, 0⟩ : SliceEvent ℤ).projection -
        intCastOrderRingHom (⟨0, "slice0", 0, 0, 0⟩ : SliceEvent ℤ).anchorProjection| ≤
      Real.sqrt (intCastOrderRingHom scenarioAState.cubeEdgeLengthSq) * Real.sqrt 3 :=
  claimC7 intCastOrderRingHom cubeVerts cubeEdges ⟨0, 0, 1⟩ "slice" scenarioAState
    (by decide) ⟨0, "slice0", 0, 0, 0⟩ (by decide)

end ClaimsBatch4

section Fidelity

variable {α : Type} [LinearOrderedCommRing α]

/-- Fidelity of the embedded band test: for any order-reflecting ring
embedding `f` of the scalars into `ℝ` and a non-negative squared spacing,
the boolean `divergencyCheck` is `true` exactly when the source's
comparison `abs(baseZ - currentZ) <= cubeEdgeLength * sqrt 3` holds, where
`cubeEdgeLength = sqrt cubeEdgeLengthSq`. -/
theorem divergencyCheck_iff_abs_le (f : α →+*o ℝ)
    (hf : ∀ a b : α, a ≤ b ↔ f a ≤ f b) (dsq zb zc : α) (hd : 0 ≤ dsq) :
    divergencyCheck dsq zb zc = true ↔
      |f zb - f zc| ≤ Real.sqrt (f dsq) * Real.sqrt 3 := by
  have hmul : Real.sqrt (f dsq) * Real.sqrt 3 = Real.sqrt (3 * f dsq) := by
    rw [Real.sqrt_mul (by norm_num : (0:ℝ) ≤ 3) (f dsq)]
    exact mul_comm _ _
  have hfd : (0:ℝ) ≤ f dsq := by
    have := (hf 0 dsq).mp hd
    rwa [map_zero] at this
  unfold divergencyCheck
  rw [decide_eq_true_iff, hmul]
  constructor
  · intro h
    have hmono := (hf _ _).mp h
    rw [map_mul, map_pow, map_sub, map_ofNat] at hmono
    calc |f zb - f zc| = Real.sqrt ((f zb - f zc) ^ 2) := (Real.sqrt_sq_eq_abs _).symm
      _ ≤ Real.sqrt (3 * f dsq) := Real.sqrt_le_sqrt hmono
  · intro h
    have h2 : |f zb - f zc| ^ 2 ≤ 3 * f dsq :=
      (Real.le_sqrt (abs_nonneg _) (by positivity)).mp h
    rw [sq_abs] at h2
    refine (hf _ _).mpr ?_
    rw [map_mul, map_pow, map_sub, map_ofNat]
    exact h2

theorem intCastOrderRingHom_le_iff (a b : ℤ) :
    a ≤ b ↔ intCastOrderRingHom a ≤ intCastOrderRingHom b := by
  constructor
  · intro h
    show ((a : ℤ) : ℝ) ≤ ((b : ℤ) : ℝ)
    exact_mod_cast h
  · intro h
    have h2 : ((a : ℤ) : ℝ) ≤ ((b : ℤ) : ℝ) := h
    exact_mod_cast h2

end Fidelity
